import Mathlib

/-
Verification of the foundry repository (GitHub repository provisioning and
productionalization action) against its natural-language specification.

The development shallowly embeds the relevant TypeScript sources:
  - the case normalizer toUpperSnakeCase (src/util/caseConverter.ts);
  - the branch protection preset catalog (src/constants/branchProtectionPresets.ts);
  - the application constants (src/constants/constants.ts);
  - the input gating of the top-level runner (src/index.ts);
  - the productionalization orchestrator (src/api/services/productionalizationService.ts).
Remote calls are modelled as explicit capability records returning Except values,
and the one observable mutation (the shallow-copy aliasing in the preset catalog)
is modelled by explicit state passing.
-/

namespace Foundry

/-! ## Character classes (ASCII, as used by the JS regexes) -/

/-- ASCII lowercase letter, the class [a-z]. -/
def lowerChar (c : Char) : Bool := 97 ≤ c.toNat && c.toNat ≤ 122

/-- ASCII uppercase letter, the class [A-Z]. -/
def upperChar (c : Char) : Bool := 65 ≤ c.toNat && c.toNat ≤ 90

/-- ASCII digit, the class [0-9]. -/
def digitChar (c : Char) : Bool := 48 ≤ c.toNat && c.toNat ≤ 57

/-- ASCII uppercasing of a single character, as String.prototype.toUpperCase
acts on ASCII input: a lowercase letter moves down by 32 code points, every
other character is unchanged. -/
def upChar (c : Char) : Char :=
  if lowerChar c then Char.ofNat (c.toNat - 32) else c

/-! ## Case normalizer

Modelled from the spec: the implementation file src/util/caseConverter.ts is not
under src/ (only its unit tests are). The model follows spec section 4.2 (insert
a separator at case transitions, replace dash and underscore runs by a single
separator, uppercase the result) with the exact transition classes pinned by the
unit tests in the repository (part_001): a separator is inserted before an
uppercase letter preceded by a lowercase letter or a digit (the JS regex
([a-z0-9])([A-Z]) with replacement $1_$2), and before the last uppercase letter
of an uppercase run that is followed by a lowercase letter (the JS regex
([A-Z]+)([A-Z][a-z]) with replacement $1_$2). The model is validated below
against every test case of the unit test file. -/

/-- First pass: insert an underscore between a lowercase letter or digit and a
following uppercase letter. Equivalent to the global regex replacement of
([a-z0-9])([A-Z]) by $1_$2: because the two classes are disjoint, consuming one
character per step agrees with the regex consuming two. -/
def rule1 : List Char → List Char
  | [] => []
  | [c] => [c]
  | a :: b :: rest =>
    if (lowerChar a || digitChar a) && upperChar b then
      a :: '_' :: rule1 (b :: rest)
    else
      a :: rule1 (b :: rest)

/-- Second pass: insert an underscore before the last uppercase letter of an
uppercase run (length at least two) that is followed by a lowercase letter.
Equivalent to the global regex replacement of ([A-Z]+)([A-Z][a-z]) by $1_$2. -/
def rule2 : List Char → List Char
  | a :: b :: c :: rest =>
    if upperChar a && upperChar b && lowerChar c then
      a :: '_' :: rule2 (b :: c :: rest)
    else
      a :: rule2 (b :: c :: rest)
  | l => l

/-- Third pass, first half: turn every dash into an underscore. -/
def dashToUnderscore (l : List Char) : List Char :=
  l.map (fun c => if c = '-' then '_' else c)

/-- Third pass, second half: collapse runs of underscores to one underscore. -/
def collapse : List Char → List Char
  | [] => []
  | [c] => [c]
  | a :: b :: rest =>
    if a = '_' && b = '_' then collapse (b :: rest)
    else a :: collapse (b :: rest)

/-- The case normalizer toUpperSnakeCase. -/
def toUpperSnakeCase (s : String) : String :=
  String.mk ((collapse (dashToUnderscore (rule2 (rule1 s.data)))).map upChar)

/-- Absence of two adjacent underscores. -/
def noDoubleUnd : List Char → Bool
  | a :: b :: rest => !(a = '_' && b = '_') && noDoubleUnd (b :: rest)
  | _ => true

/-- The identifier alphabet of spec section 4.2: camelCase, PascalCase,
snake_case, kebab-case and mixed acronym forms, with digits. -/
def idChar (c : Char) : Bool :=
  lowerChar c || upperChar c || digitChar c || c = '-' || c = '_'

/-- The output alphabet of the normalizer: the regex class [A-Z0-9_]. -/
def outChar (c : Char) : Bool := upperChar c || digitChar c || c = '_'

/-! ## Branch protection preset catalog (src/constants/branchProtectionPresets.ts) -/

/-- Branch protection preset levels, from src/api/types/productionalization.ts. -/
inductive BranchProtectionPreset where
  | strict
  | moderate
  | minimal
  deriving DecidableEq

/-- The ref_name condition block of a ruleset. The source fields are named
include and exclude; include is a Lean keyword, so they carry a ref_ marker. -/
structure RefNameCondition where
  ref_include : List String
  ref_exclude : List String
  deriving DecidableEq

/-- The parameters record of a pull_request rule, the only rule type of the
preset catalog that carries parameters. -/
structure PullRequestParameters where
  dismiss_stale_reviews_on_push : Bool
  require_code_owner_review : Bool
  require_last_push_approval : Bool
  required_approving_review_count : Nat
  required_review_thread_resolution : Bool
  deriving DecidableEq

/-- One rule of a ruleset: a type tag plus optional parameters. -/
structure RulesetRule where
  type : String
  parameters : Option PullRequestParameters
  deriving DecidableEq

/-- A branch protection ruleset, as in the BranchProtectionRuleset type of the
source (target and enforcement are kept as strings). -/
structure BranchProtectionRuleset where
  name : String
  target : String
  enforcement : String
  conditions : RefNameCondition
  rules : List RulesetRule
  deriving DecidableEq

/-- The static strict preset template (lines 39 to 64 of the source file). -/
def strictProtection : BranchProtectionRuleset :=
  { name := "Branch protection rules (strict)"
    target := "branch"
    enforcement := "active"
    conditions := { ref_include := [], ref_exclude := [] }
    rules := [
      { type := "pull_request"
        parameters := some
          { dismiss_stale_reviews_on_push := true
            require_code_owner_review := false
            require_last_push_approval := true
            required_approving_review_count := 2
            required_review_thread_resolution := true } },
      { type := "non_fast_forward", parameters := none } ] }

/-- The static moderate preset template (lines 77 to 102 of the source file). -/
def moderateProtection : BranchProtectionRuleset :=
  { name := "Branch protection rules (moderate)"
    target := "branch"
    enforcement := "active"
    conditions := { ref_include := [], ref_exclude := [] }
    rules := [
      { type := "pull_request"
        parameters := some
          { dismiss_stale_reviews_on_push := true
            require_code_owner_review := false
            require_last_push_approval := true
            required_approving_review_count := 1
            required_review_thread_resolution := true } },
      { type := "non_fast_forward", parameters := none } ] }

/-- The static minimal preset template (lines 115 to 140 of the source file). -/
def minimalProtection : BranchProtectionRuleset :=
  { name := "Branch protection rules (minimal)"
    target := "branch"
    enforcement := "active"
    conditions := { ref_include := [], ref_exclude := [] }
    rules := [
      { type := "pull_request"
        parameters := some
          { dismiss_stale_reviews_on_push := false
            require_code_owner_review := false
            require_last_push_approval := false
            required_approving_review_count := 1
            required_review_thread_resolution := false } },
      { type := "non_fast_forward", parameters := none } ] }

/-- The preset catalog BRANCH_PROTECTION_PRESETS. -/
def BRANCH_PROTECTION_PRESETS : BranchProtectionPreset → BranchProtectionRuleset
  | .strict => strictProtection
  | .moderate => moderateProtection
  | .minimal => minimalProtection

/-- The mutable nested state of the preset catalog. In the source,
getBranchProtectionPreset copies the template with a shallow object spread, so
the nested conditions.ref_name object stays shared between the catalog entry
and every ruleset the getter has returned; the only field ever written through
that shared object is its include list. The state therefore records, per
preset, the current include list of that shared object. -/
structure CatalogState where
  strictInclude : List String
  moderateInclude : List String
  minimalInclude : List String
  deriving DecidableEq

/-- The module-load state of the catalog: each template starts with an empty
include list, to be set dynamically by the getter. -/
def initialCatalogState : CatalogState :=
  { strictInclude := [], moderateInclude := [], minimalInclude := [] }

/-- Read the shared include list of a preset. -/
def getInclude : BranchProtectionPreset → CatalogState → List String
  | .strict, s => s.strictInclude
  | .moderate, s => s.moderateInclude
  | .minimal, s => s.minimalInclude

/-- Write the shared include list of a preset. -/
def setInclude : BranchProtectionPreset → List String → CatalogState → CatalogState
  | .strict, l, s => { s with strictInclude := l }
  | .moderate, l, s => { s with moderateInclude := l }
  | .minimal, l, s => { s with minimalInclude := l }

/-- The ruleset value for a preset whose shared include list currently holds
inc: all other fields come from the static template. -/
def presetRuleset (preset : BranchProtectionPreset) (inc : List String) :
    BranchProtectionRuleset :=
  let base := BRANCH_PROTECTION_PRESETS preset
  { base with conditions :=
      { ref_include := inc, ref_exclude := base.conditions.ref_exclude } }

/-- getBranchProtectionPreset (lines 158 to 168 of the source file): builds a
shallow copy of the template, then assigns conditions.ref_name.include through
the shared conditions object. Returns the ruleset value observed at return
time, paired with the updated catalog state; the source default for
targetBranch is the string master, supplied by callers through
DEFAULT_BRANCH_PROTECTION_TARGET below. -/
def getBranchProtectionPreset (preset : BranchProtectionPreset)
    (targetBranch : String) (s : CatalogState) :
    BranchProtectionRuleset × CatalogState :=
  let inc := ["refs/heads/" ++ targetBranch]
  (presetRuleset preset inc, setInclude preset inc s)

/-- The ruleset observed, at catalog state s, through a reference that an
earlier getBranchProtectionPreset call returned for this preset: because the
conditions object is shared, the observation reflects the current state, not
the state at the time of that earlier call. -/
def viewRuleset (preset : BranchProtectionPreset) (s : CatalogState) :
    BranchProtectionRuleset :=
  presetRuleset preset (getInclude preset s)

/-! ## Application constants (src/constants/constants.ts) -/

def DEFAULT_PRODUCTIONALIZE : Bool := false

def DEFAULT_BRANCH_PROTECTION_TARGET : String := "master"

/-! ## Productionalization data model (src/api/types/productionalization.ts) -/

/-- GitHub team permission levels. -/
inductive TeamPermission where
  | pull
  | triage
  | push
  | maintain
  | admin
  deriving DecidableEq

/-- Configuration for a single team permission. -/
structure TeamPermissionConfig where
  teamSlug : String
  permission : TeamPermission
  deriving DecidableEq

/-- Reviewer type for environment protection rules. -/
inductive ReviewerType where
  | User
  | Team
  deriving DecidableEq

/-- Environment reviewer configuration. -/
structure EnvironmentReviewer where
  type : ReviewerType
  slug : String
  deriving DecidableEq

/-- GitHub environment configuration. -/
structure EnvironmentConfig where
  name : String
  waitTimer : Option Nat := none
  reviewers : Option (List EnvironmentReviewer) := none
  preventSelfReview : Option Bool := none
  deriving DecidableEq

/-- Single environment variable. -/
structure EnvironmentVariable where
  name : String
  value : String
  deriving DecidableEq

/-- Environment variables for a specific environment; the source field named
variables (a Lean keyword) is rendered varList. -/
structure EnvironmentVariables where
  environmentName : String
  varList : List EnvironmentVariable
  deriving DecidableEq

/-- Repository secret configuration. -/
structure RepositorySecret where
  name : String
  value : String
  deriving DecidableEq

/-- Complete productionalization configuration; every field is optional and
absence means the corresponding sub-operation is skipped. -/
structure ProductionalizationConfig where
  teamPermissions : Option (List TeamPermissionConfig) := none
  topics : Option (List String) := none
  environments : Option (List EnvironmentConfig) := none
  environmentVariables : Option (List EnvironmentVariables) := none
  branchProtectionPreset : Option BranchProtectionPreset := none
  branchProtectionTargetBranch : Option String := none
  secrets : Option (List RepositorySecret) := none
  deriving DecidableEq

/-- Result of a single team permission operation. -/
structure TeamPermissionResult where
  teamSlug : String
  success : Bool
  error : Option String := none
  deriving DecidableEq

/-- Result of a failed environment creation. -/
structure EnvironmentCreationResult where
  environment : String
  success : Bool
  error : Option String := none
  deriving DecidableEq

/-- Result of a failed environment variable operation; the source field named
variable (a Lean keyword) is rendered varName. -/
structure EnvironmentVariableResult where
  environment : String
  varName : String
  success : Bool
  error : Option String := none
  deriving DecidableEq

/-- Result of a failed secret creation. -/
structure SecretCreationResult where
  secret : String
  success : Bool
  error : Option String := none
  deriving DecidableEq

/-- Comprehensive productionalization result, one slot per sub-operation. -/
structure ProductionalizationResult where
  teamPermissions : List TeamPermissionResult
  topicsAdded : Bool
  topicsError : Option String
  environmentsCreated : List String
  environmentErrors : List EnvironmentCreationResult
  variablesCreated : Nat
  variableErrors : List EnvironmentVariableResult
  branchProtectionCreated : Bool
  branchProtectionError : Option String
  secretsCreated : Nat
  secretErrors : List SecretCreationResult
  deriving DecidableEq

/-! ## Productionalization orchestrator

Modelled from the spec: the implementation file
src/api/services/productionalizationService.ts is not under src/ (only its
unit tests and its type declarations are). The orchestrator below follows spec
section 4.6 and is cross-checked against the unit tests in
productionalizationService.test.ts. The remote capability is an explicit
record of deterministic outcome oracles; the sealed-box primitive is injected
as the seal field of the same record. -/

/-- The remote capability surface consumed by the orchestrator (spec section
6). Each operation takes its arguments in the order of the REST call of the
test file and returns a payload or fails with a human-readable message. -/
structure RemoteApi where
  addOrUpdateRepoPermissionsInOrg :
    String → String → String → String → String → Except String Unit
  getAllTopics : String → String → Except String (List String)
  replaceAllTopics : String → String → List String → Except String Unit
  getTeamByName : String → String → Except String Nat
  getUserByUsername : String → Except String Nat
  createOrUpdateEnvironment : String → String → String → Option Nat →
    Option (List (String × Nat)) → Option Bool → Except String Unit
  getEnvironmentVariable : String → String → String → String → Except String Unit
  createEnvironmentVariable :
    String → String → String → String → String → Except String Unit
  updateEnvironmentVariable :
    String → String → String → String → String → Except String Unit
  getRepoPublicKey : String → String → Except String (String × String)
  createOrUpdateRepoSecret :
    String → String → String → String → String → Except String Unit
  createRepoRuleset : String → String → BranchProtectionRuleset → Except String Unit
  cryptoBoxSeal : String → String → String

/-- The wire form of a team permission level. -/
def permissionString : TeamPermission → String
  | .pull => "pull"
  | .triage => "triage"
  | .push => "push"
  | .maintain => "maintain"
  | .admin => "admin"

/-- Modelled from the spec: sub-operation 1 of section 4.6. One add or update
permission call per configured team, in input order; a failure is recorded per
team and does not stop the iteration. -/
def runTeamPermissions (api : RemoteApi) (owner repo : String) :
    Option (List TeamPermissionConfig) → List TeamPermissionResult
  | none => []
  | some teams => teams.map fun t =>
      match api.addOrUpdateRepoPermissionsInOrg owner t.teamSlug owner repo
          (permissionString t.permission) with
      | .ok _ => { teamSlug := t.teamSlug, success := true, error := none }
      | .error e => { teamSlug := t.teamSlug, success := false, error := some e }

/-- Case-sensitive set union of existing and configured topics, duplicates
collapsed. -/
def unionTopics (existing configured : List String) : List String :=
  (existing ++ configured).eraseDups

/-- Modelled from the spec: sub-operation 2 of section 4.6. Fetch existing
topics, union with the configured ones, replace the full set; a fetch or
replace failure yields topicsAdded false with the error recorded. -/
def runTopics (api : RemoteApi) (owner repo : String) :
    Option (List String) → Bool × Option String
  | none => (false, none)
  | some topics =>
    match api.getAllTopics owner repo with
    | .error e => (false, some e)
    | .ok existing =>
      match api.replaceAllTopics owner repo (unionTopics existing topics) with
      | .error e => (false, some e)
      | .ok _ => (true, none)

/-- The wire form of a reviewer type. -/
def reviewerTypeString : ReviewerType → String
  | .User => "User"
  | .Team => "Team"

/-- Resolve one reviewer slug to a platform id: teams by org plus slug, users
by username. -/
def resolveReviewer (api : RemoteApi) (owner : String) (r : EnvironmentReviewer) :
    Except String (String × Nat) :=
  match r.type with
  | .Team => (api.getTeamByName owner r.slug).map (fun i => ("Team", i))
  | .User => (api.getUserByUsername r.slug).map (fun i => ("User", i))

/-- Resolve a reviewer list left to right; the first failure fails the list. -/
def resolveReviewers (api : RemoteApi) (owner : String) :
    List EnvironmentReviewer → Except String (List (String × Nat))
  | [] => .ok []
  | r :: rs => do
    let x ← resolveReviewer api owner r
    let xs ← resolveReviewers api owner rs
    .ok (x :: xs)

/-- Create one environment: resolve its reviewers, then issue the create or
update call; a reviewer resolution failure fails the whole environment. -/
def createOneEnvironment (api : RemoteApi) (owner repo : String)
    (env : EnvironmentConfig) : Except String Unit := do
  let reviewers ← match env.reviewers with
    | none => pure none
    | some rs => (resolveReviewers api owner rs).map some
  api.createOrUpdateEnvironment owner repo env.name env.waitTimer reviewers
    env.preventSelfReview

/-- Modelled from the spec: sub-operation 3 of section 4.6. Environments in
input order; success appends the name to environmentsCreated, failure appends
an error entry. -/
def runEnvironments (api : RemoteApi) (owner repo : String) :
    Option (List EnvironmentConfig) →
      List String × List EnvironmentCreationResult
  | none => ([], [])
  | some envs => envs.foldl
      (fun acc env =>
        match createOneEnvironment api owner repo env with
        | .ok _ => (acc.1 ++ [env.name], acc.2)
        | .error e =>
          (acc.1, acc.2 ++ [{ environment := env.name, success := false, error := some e }]))
      ([], [])

/-- The environment names configured for this run. -/
def configuredEnvNames : Option (List EnvironmentConfig) → List String
  | none => []
  | some envs => envs.map (fun env => env.name)

/-- Set one environment variable under its normalized name: probe with a get
call, update when it exists, create when the probe fails (the shape mocked by
the unit tests). -/
def setOneVariable (api : RemoteApi) (owner repo envName : String)
    (v : EnvironmentVariable) : Except String Unit :=
  let varName := toUpperSnakeCase v.name
  match api.getEnvironmentVariable owner repo envName varName with
  | .ok _ => api.updateEnvironmentVariable owner repo envName varName v.value
  | .error _ => api.createEnvironmentVariable owner repo envName varName v.value

/-- Modelled from the spec: sub-operation 4 of section 4.6. Blocks whose
environmentName is among the configured environment names of this run are
processed (per the main clause of step 4; the orchestrator does not filter by
per-environment success); every variable is accounted for exactly once, in the
count on success or in the error list on failure, tagged with its normalized
name. -/
def runVariables (api : RemoteApi) (owner repo : String) (envNames : List String) :
    Option (List EnvironmentVariables) → Nat × List EnvironmentVariableResult
  | none => (0, [])
  | some blocks => (blocks.filter (fun b => envNames.contains b.environmentName)).foldl
      (fun acc b => b.varList.foldl
        (fun acc2 v =>
          match setOneVariable api owner repo b.environmentName v with
          | .ok _ => (acc2.1 + 1, acc2.2)
          | .error e =>
            (acc2.1, acc2.2 ++
              [{ environment := b.environmentName, varName := toUpperSnakeCase v.name,
                 success := false, error := some e }]))
        acc)
      (0, [])

/-- Modelled from the spec: sub-operation 5 of section 4.6. Resolve the preset
with the configured target branch, defaulting to the fixed fallback, and issue
one create ruleset call. -/
def runBranchProtection (api : RemoteApi) (owner repo : String)
    (preset : Option BranchProtectionPreset) (targetBranch : Option String) :
    Bool × Option String :=
  match preset with
  | none => (false, none)
  | some p =>
    let ruleset := (getBranchProtectionPreset p
      (targetBranch.getD DEFAULT_BRANCH_PROTECTION_TARGET) initialCatalogState).1
    match api.createRepoRuleset owner repo ruleset with
    | .ok _ => (true, none)
    | .error e => (false, some e)

/-- One issued create or update repository secret call, recorded for the call
trace of the secrets stage. -/
structure SecretCall where
  owner : String
  repo : String
  secretName : String
  encryptedValue : String
  keyId : String
  deriving DecidableEq

/-- Outcome of the secrets stage: the count of created secrets, the per-secret
error entries, and the trace of issued create or update secret calls. -/
structure SecretsOutcome where
  created : Nat
  errors : List SecretCreationResult
  calls : List SecretCall
  deriving DecidableEq

/-- Modelled from the spec: sub-operation 6 of section 4.6. The public key is
fetched once; if that fetch fails the whole stage is abandoned with no
per-secret errors and no upload call. Otherwise each secret is sealed against
the key and uploaded in input order, counting successes and recording
failures. -/
def runSecrets (api : RemoteApi) (owner repo : String) :
    Option (List RepositorySecret) → SecretsOutcome
  | none => { created := 0, errors := [], calls := [] }
  | some secrets =>
    match api.getRepoPublicKey owner repo with
    | .error _ => { created := 0, errors := [], calls := [] }
    | .ok kk => secrets.foldl
        (fun acc s =>
          let sealedValue := api.cryptoBoxSeal kk.2 s.value
          let call : SecretCall :=
            { owner := owner, repo := repo, secretName := s.name,
              encryptedValue := sealedValue, keyId := kk.1 }
          match api.createOrUpdateRepoSecret owner repo s.name sealedValue kk.1 with
          | .ok _ =>
            { created := acc.created + 1, errors := acc.errors,
              calls := acc.calls ++ [call] }
          | .error e =>
            { created := acc.created,
              errors := acc.errors ++ [{ secret := s.name, success := false, error := some e }],
              calls := acc.calls ++ [call] })
        { created := 0, errors := [], calls := [] }

/-- Modelled from the spec: productionalizeRepository of section 4.6. The six
sub-operations run in fixed order, each guarded, and the aggregated result is
always fully populated; the function is total, so the call always resolves. -/
def productionalizeRepository (api : RemoteApi) (owner repo : String)
    (config : ProductionalizationConfig) : ProductionalizationResult :=
  let team := runTeamPermissions api owner repo config.teamPermissions
  let top := runTopics api owner repo config.topics
  let envs := runEnvironments api owner repo config.environments
  let vars := runVariables api owner repo (configuredEnvNames config.environments)
    config.environmentVariables
  let bp := runBranchProtection api owner repo config.branchProtectionPreset
    config.branchProtectionTargetBranch
  let sec := runSecrets api owner repo config.secrets
  { teamPermissions := team
    topicsAdded := top.1
    topicsError := top.2
    environmentsCreated := envs.1
    environmentErrors := envs.2
    variablesCreated := vars.1
    variableErrors := vars.2
    branchProtectionCreated := bp.1
    branchProtectionError := bp.2
    secretsCreated := sec.created
    secretErrors := sec.errors }

/-! ## Top-level runner gating (src/index.ts) -/

/-- JavaScript string disjunction a or b: the left operand unless it is the
empty string (the only falsy string). -/
def strOr (a b : String) : String := if a = "" then b else a

/-- Resolution of the default-branch input in getInitializer (line 36). -/
def resolveDefaultBranch (raw : String) : String := strOr raw "main"

/-- Resolution of the branch-protection-target-branch input in getInitializer
(lines 78 to 81). -/
def resolveTargetBranch (raw : String) : String :=
  strOr raw DEFAULT_BRANCH_PROTECTION_TARGET

/-- The productionalize gate of getInitializer (lines 40 to 41): the raw input
compared with the string true, with DEFAULT_PRODUCTIONALIZE as fallback. -/
def productionalizeEnabled (raw : String) : Bool :=
  (raw == "true") || DEFAULT_PRODUCTIONALIZE

/-- The productionalization-relevant fields of the runner input: both are set
only inside the gated block of getInitializer. -/
structure RunnerProdInput where
  productionalize : Bool
  productionalizationConfig : Option ProductionalizationConfig

/-- The gated part of getInitializer (lines 43 to 92): when the gate is open,
the parsed configuration is attached and productionalize is set; otherwise
neither assignment happens and the fields keep their absent defaults. -/
def getInitializerProd (raw : String)
    (parsedConfig : ProductionalizationConfig) : RunnerProdInput :=
  if productionalizeEnabled raw then
    { productionalize := true, productionalizationConfig := some parsedConfig }
  else
    { productionalize := false, productionalizationConfig := none }

/-- The condition of run (line 131) under which productionalizeRepository is
called and the productionalization-status output is set. -/
def producesProdStatusOutput (inp : RunnerProdInput) : Bool :=
  inp.productionalize && inp.productionalizationConfig.isSome

/-! ## Test fixtures used by the witnesses -/

/-- A concrete capability mirroring the mocks of the unit tests: the team
permission call succeeds for valid-team and fails with the message Team not
found otherwise, and the public key fetch fails with Access denied. -/
def twoTeamApi : RemoteApi where
  addOrUpdateRepoPermissionsInOrg := fun _ teamSlug _ _ _ =>
    if teamSlug = "valid-team" then .ok () else .error "Team not found"
  getAllTopics := fun _ _ => .ok []
  replaceAllTopics := fun _ _ _ => .ok ()
  getTeamByName := fun _ _ => .ok 123
  getUserByUsername := fun _ => .ok 456
  createOrUpdateEnvironment := fun _ _ _ _ _ _ => .ok ()
  getEnvironmentVariable := fun _ _ _ _ => .error "Not found"
  createEnvironmentVariable := fun _ _ _ _ _ => .ok ()
  updateEnvironmentVariable := fun _ _ _ _ _ => .ok ()
  getRepoPublicKey := fun _ _ => .error "Access denied"
  createOrUpdateRepoSecret := fun _ _ _ _ _ => .ok ()
  createRepoRuleset := fun _ _ _ => .ok ()
  cryptoBoxSeal := fun _ v => v

/-- The two-team configuration of the unit test at lines 123 to 150. -/
def twoTeamConfig : ProductionalizationConfig :=
  { teamPermissions := some [
      { teamSlug := "valid-team", permission := .admin },
      { teamSlug := "invalid-team", permission := .push } ] }

/-- The one-secret configuration of the unit test at lines 450 to 469. -/
def oneSecretConfig : ProductionalizationConfig :=
  { secrets := some [{ name := "SECRET", value := "value" }] }

/-! ### Validation of the normalizer model against every case of the
repository unit test file for the case converter (part_001) -/

example : toUpperSnakeCase "myVariableName" = "MY_VARIABLE_NAME" := by decide
example : toUpperSnakeCase "value123Name" = "VALUE123_NAME" := by decide
example : toUpperSnakeCase "variable" = "VARIABLE" := by decide
example : toUpperSnakeCase "MyVariableName" = "MY_VARIABLE_NAME" := by decide
example : toUpperSnakeCase "APIKey" = "API_KEY" := by decide
example : toUpperSnakeCase "awsAccountId" = "AWS_ACCOUNT_ID" := by decide
example : toUpperSnakeCase "HTTPSConnection" = "HTTPS_CONNECTION" := by decide
example : toUpperSnakeCase "clusterNameEast" = "CLUSTER_NAME_EAST" := by decide
example : toUpperSnakeCase "nodeEnvProduction" = "NODE_ENV_PRODUCTION" := by decide
example : toUpperSnakeCase "ALREADY_UPPER" = "ALREADY_UPPER" := by decide
example : toUpperSnakeCase "" = "" := by decide
example : toUpperSnakeCase "a" = "A" := by decide
example : toUpperSnakeCase "A" = "A" := by decide

/-! ### Character-level facts -/

theorem char_eq_iff_toNat {a b : Char} : a = b ↔ a.toNat = b.toNat :=
  ⟨fun h => h ▸ rfl, fun h => Char.eq_of_val_eq (UInt32.ext h)⟩

theorem lowerChar_eq_true {c : Char} :
    lowerChar c = true ↔ 97 ≤ c.toNat ∧ c.toNat ≤ 122 := by
  simp [lowerChar]

theorem upperChar_eq_true {c : Char} :
    upperChar c = true ↔ 65 ≤ c.toNat ∧ c.toNat ≤ 90 := by
  simp [upperChar]

theorem digitChar_eq_true {c : Char} :
    digitChar c = true ↔ 48 ≤ c.toNat ∧ c.toNat ≤ 57 := by
  simp [digitChar]

theorem lowerChar_eq_false {c : Char} :
    lowerChar c = false ↔ ¬(97 ≤ c.toNat ∧ c.toNat ≤ 122) := by
  rw [← Bool.not_eq_true, lowerChar_eq_true]

theorem ofNat_toNat_upper : ∀ n, 65 ≤ n → n ≤ 90 → (Char.ofNat n).toNat = n := by
  intro n h1 h2
  interval_cases n <;> decide

theorem toNat_upChar_of_lower {c : Char} (h : lowerChar c = true) :
    (upChar c).toNat = c.toNat - 32 := by
  unfold upChar
  rw [if_pos h]
  rw [lowerChar_eq_true] at h
  exact ofNat_toNat_upper _ (by omega) (by omega)

theorem upChar_eq_self {c : Char} (h : lowerChar c = false) : upChar c = c := by
  unfold upChar
  rw [if_neg (by simp [h])]

theorem upperChar_upChar_of_lower {c : Char} (h : lowerChar c = true) :
    upperChar (upChar c) = true := by
  have h2 := toNat_upChar_of_lower h
  rw [lowerChar_eq_true] at h
  rw [upperChar_eq_true]
  omega

theorem lowerChar_upChar (c : Char) : lowerChar (upChar c) = false := by
  cases hlc : lowerChar c with
  | false => rw [upChar_eq_self hlc]; exact hlc
  | true =>
    have h2 := toNat_upChar_of_lower hlc
    rw [lowerChar_eq_true] at hlc
    rw [lowerChar_eq_false]
    omega

theorem digitChar_upChar (c : Char) : digitChar (upChar c) = digitChar c := by
  cases hlc : lowerChar c with
  | false => rw [upChar_eq_self hlc]
  | true =>
    have h2 := toNat_upChar_of_lower hlc
    rw [lowerChar_eq_true] at hlc
    have hd1 : digitChar (upChar c) = false := by
      rw [← Bool.not_eq_true, digitChar_eq_true]; omega
    have hd2 : digitChar c = false := by
      rw [← Bool.not_eq_true, digitChar_eq_true]; omega
    rw [hd1, hd2]

theorem upChar_eq_underscore_iff (c : Char) : upChar c = '_' ↔ c = '_' := by
  cases hlc : lowerChar c with
  | false => rw [upChar_eq_self hlc]
  | true =>
    have h2 := toNat_upChar_of_lower hlc
    rw [lowerChar_eq_true] at hlc
    constructor
    · intro h
      rw [char_eq_iff_toNat] at h
      have : ('_' : Char).toNat = 95 := rfl
      omega
    · intro h
      rw [char_eq_iff_toNat] at h
      have : ('_' : Char).toNat = 95 := rfl
      omega

theorem upChar_ne_dash {c : Char} (h : c ≠ '-') : upChar c ≠ '-' := by
  cases hlc : lowerChar c with
  | false => rw [upChar_eq_self hlc]; exact h
  | true =>
    have h2 := toNat_upChar_of_lower hlc
    rw [lowerChar_eq_true] at hlc
    intro hc
    rw [char_eq_iff_toNat] at hc
    have : ('-' : Char).toNat = 45 := rfl
    omega

theorem ne_underscore_of_lower_or_digit {a : Char}
    (ha : (lowerChar a || digitChar a) = true) : a ≠ '_' := by
  rcases Bool.or_eq_true_iff.mp ha with h | h
  · rw [lowerChar_eq_true] at h
    intro hc; rw [char_eq_iff_toNat] at hc
    have : ('_' : Char).toNat = 95 := rfl
    omega
  · rw [digitChar_eq_true] at h
    intro hc; rw [char_eq_iff_toNat] at hc
    have : ('_' : Char).toNat = 95 := rfl
    omega

theorem ne_dash_of_lower_or_digit {a : Char}
    (ha : (lowerChar a || digitChar a) = true) : a ≠ '-' := by
  rcases Bool.or_eq_true_iff.mp ha with h | h
  · rw [lowerChar_eq_true] at h
    intro hc; rw [char_eq_iff_toNat] at hc
    have : ('-' : Char).toNat = 45 := rfl
    omega
  · rw [digitChar_eq_true] at h
    intro hc; rw [char_eq_iff_toNat] at hc
    have : ('-' : Char).toNat = 45 := rfl
    omega

theorem ne_underscore_of_upper {b : Char} (hb : upperChar b = true) : b ≠ '_' := by
  rw [upperChar_eq_true] at hb
  intro hc; rw [char_eq_iff_toNat] at hc
  have : ('_' : Char).toNat = 95 := rfl
  omega

theorem not_lower_of_upper {b : Char} (hb : upperChar b = true) : lowerChar b = false := by
  rw [upperChar_eq_true] at hb
  rw [lowerChar_eq_false]
  omega

theorem not_lower_of_digit {b : Char} (hb : digitChar b = true) : lowerChar b = false := by
  rw [digitChar_eq_true] at hb
  rw [lowerChar_eq_false]
  omega

/-! ### List-level facts about the normalizer passes -/

theorem rule1_cons (c : Char) (l : List Char) : ∃ t, rule1 (c :: l) = c :: t := by
  cases l with
  | nil => exact ⟨[], rfl⟩
  | cons b rest =>
    simp only [rule1]
    split
    · exact ⟨'_' :: rule1 (b :: rest), rfl⟩
    · exact ⟨rule1 (b :: rest), rfl⟩

theorem rule2_cons (c : Char) (l : List Char) : ∃ t, rule2 (c :: l) = c :: t := by
  cases l with
  | nil => exact ⟨[], rfl⟩
  | cons b rest =>
    cases rest with
    | nil => exact ⟨[b], rfl⟩
    | cons d r =>
      simp only [rule2]
      split
      · exact ⟨'_' :: rule2 (b :: d :: r), rfl⟩
      · exact ⟨rule2 (b :: d :: r), rfl⟩

theorem collapse_cons (b : Char) (l : List Char) : ∃ t, collapse (b :: l) = b :: t := by
  induction l generalizing b with
  | nil => exact ⟨[], rfl⟩
  | cons c r ih =>
    by_cases hb : b = '_'
    · by_cases hc : c = '_'
      · obtain ⟨t, ht⟩ := ih c
        refine ⟨t, ?_⟩
        subst hb; subst hc
        simp only [collapse]
        rw [if_pos (by decide)]
        exact ht
      · exact ⟨collapse (c :: r), by simp [collapse, hc]⟩
    · exact ⟨collapse (c :: r), by simp [collapse, hb]⟩

theorem rule1_id {l : List Char}
    (h : ∀ c ∈ l, lowerChar c = false ∧ digitChar c = false) : rule1 l = l := by
  induction l with
  | nil => rfl
  | cons a t ih =>
    cases t with
    | nil => rfl
    | cons b r =>
      have ha := h a (List.mem_cons_self a _)
      have ih2 : rule1 (b :: r) = b :: r :=
        ih (fun c hc => h c (List.mem_cons_of_mem _ hc))
      simp only [rule1]
      rw [if_neg (by simp [ha.1, ha.2]), ih2]

theorem rule2_id {l : List Char}
    (h : ∀ c ∈ l, lowerChar c = false) : rule2 l = l := by
  induction l with
  | nil => rfl
  | cons a t ih =>
    cases t with
    | nil => rfl
    | cons b u =>
      cases u with
      | nil => rfl
      | cons c r =>
        have hc := h c (List.mem_cons_of_mem _ (List.mem_cons_of_mem _ (List.mem_cons_self c _)))
        have ih2 : rule2 (b :: c :: r) = b :: c :: r :=
          ih (fun d hd => h d (List.mem_cons_of_mem _ hd))
        simp only [rule2]
        rw [if_neg (by simp [hc]), ih2]

theorem dashToUnderscore_id {l : List Char} (h : ∀ c ∈ l, c ≠ '-') :
    dashToUnderscore l = l := by
  induction l with
  | nil => rfl
  | cons a t ih =>
    have ha := h a (List.mem_cons_self a _)
    simp only [dashToUnderscore, List.map_cons]
    rw [if_neg ha]
    have := ih (fun c hc => h c (List.mem_cons_of_mem _ hc))
    simp only [dashToUnderscore] at this
    rw [this]

theorem collapse_id {l : List Char} (h : noDoubleUnd l = true) : collapse l = l := by
  induction l with
  | nil => rfl
  | cons a t ih =>
    cases t with
    | nil => rfl
    | cons b r =>
      simp only [noDoubleUnd, Bool.and_eq_true, Bool.not_eq_true'] at h
      simp only [collapse]
      rw [if_neg (by simp [h.1]), ih h.2]

theorem map_upChar_id {l : List Char} (h : ∀ c ∈ l, lowerChar c = false) :
    l.map upChar = l := by
  induction l with
  | nil => rfl
  | cons a t ih =>
    simp only [List.map_cons]
    rw [upChar_eq_self (h a (List.mem_cons_self a _)),
      ih (fun c hc => h c (List.mem_cons_of_mem _ hc))]

theorem mem_rule1 {c : Char} {l : List Char} (h : c ∈ rule1 l) : c ∈ l ∨ c = '_' := by
  induction l with
  | nil => simp [rule1] at h
  | cons a t ih =>
    cases t with
    | nil =>
      simp only [rule1, List.mem_singleton] at h
      exact Or.inl (by simp [h])
    | cons b r =>
      simp only [rule1] at h
      split at h
      · simp only [List.mem_cons] at h
        rcases h with rfl | rfl | h
        · exact Or.inl (List.mem_cons_self _ _)
        · exact Or.inr rfl
        · rcases ih h with h2 | h2
          · exact Or.inl (List.mem_cons_of_mem _ h2)
          · exact Or.inr h2
      · simp only [List.mem_cons] at h
        rcases h with rfl | h
        · exact Or.inl (List.mem_cons_self _ _)
        · rcases ih h with h2 | h2
          · exact Or.inl (List.mem_cons_of_mem _ h2)
          · exact Or.inr h2

theorem mem_rule2 {c : Char} {l : List Char} (h : c ∈ rule2 l) : c ∈ l ∨ c = '_' := by
  induction l with
  | nil => simp [rule2] at h
  | cons a t ih =>
    cases t with
    | nil => exact Or.inl h
    | cons b u =>
      cases u with
      | nil => exact Or.inl h
      | cons d r =>
        simp only [rule2] at h
        split at h
        · simp only [List.mem_cons] at h
          rcases h with rfl | rfl | h
          · exact Or.inl (List.mem_cons_self _ _)
          · exact Or.inr rfl
          · rcases ih h with h2 | h2
            · exact Or.inl (List.mem_cons_of_mem _ h2)
            · exact Or.inr h2
        · simp only [List.mem_cons] at h
          rcases h with rfl | h
          · exact Or.inl (List.mem_cons_self _ _)
          · rcases ih h with h2 | h2
            · exact Or.inl (List.mem_cons_of_mem _ h2)
            · exact Or.inr h2

theorem mem_dashToUnderscore {c : Char} {l : List Char} (h : c ∈ dashToUnderscore l) :
    (c ∈ l ∧ c ≠ '-') ∨ c = '_' := by
  simp only [dashToUnderscore, List.mem_map] at h
  obtain ⟨d, hd, hdc⟩ := h
  by_cases hdash : d = '-'
  · right; rw [← hdc, if_pos hdash]
  · left
    rw [← hdc, if_neg hdash]
    exact ⟨hd, hdash⟩

theorem mem_collapse {c : Char} {l : List Char} (h : c ∈ collapse l) : c ∈ l := by
  induction l with
  | nil => simp [collapse] at h
  | cons a t ih =>
    cases t with
    | nil => exact h
    | cons b r =>
      simp only [collapse] at h
      split at h
      · exact List.mem_cons_of_mem _ (ih h)
      · simp only [List.mem_cons] at h
        rcases h with rfl | h
        · exact List.mem_cons_self _ _
        · exact List.mem_cons_of_mem _ (ih h)

theorem noDoubleUnd_collapse (l : List Char) : noDoubleUnd (collapse l) = true := by
  induction l with
  | nil => rfl
  | cons a t ih =>
    cases t with
    | nil => rfl
    | cons b r =>
      simp only [collapse]
      split
      · exact ih
      · rename_i hcond
        obtain ⟨t2, ht2⟩ := collapse_cons b r
        rw [ht2]
        simp only [noDoubleUnd, Bool.and_eq_true, Bool.not_eq_true']
        constructor
        · simpa using hcond
        · rw [← ht2]; exact ih

theorem decide_upChar_underscore (c : Char) :
    decide (upChar c = '_') = decide (c = '_') := by
  by_cases h : c = '_'
  · rw [decide_eq_true ((upChar_eq_underscore_iff c).mpr h), decide_eq_true h]
  · rw [decide_eq_false (fun hc => h ((upChar_eq_underscore_iff c).mp hc)),
      decide_eq_false h]

theorem noDoubleUnd_map_upChar {l : List Char} (h : noDoubleUnd l = true) :
    noDoubleUnd (l.map upChar) = true := by
  induction l with
  | nil => rfl
  | cons a t ih =>
    cases t with
    | nil => rfl
    | cons b r =>
      simp only [noDoubleUnd, Bool.and_eq_true] at h
      simp only [List.map_cons, noDoubleUnd, Bool.and_eq_true]
      refine ⟨?_, ?_⟩
      · rw [decide_upChar_underscore, decide_upChar_underscore]
        exact h.1
      · exact ih h.2

/-! ### Normalizer output characterisation -/

theorem toUpperSnakeCase_data_eq (s : String) :
    (toUpperSnakeCase s).data =
      (collapse (dashToUnderscore (rule2 (rule1 s.data)))).map upChar := rfl

theorem mem_toUpperSnakeCase_data {c : Char} {s : String}
    (h : c ∈ (toUpperSnakeCase s).data) :
    ∃ d, c = upChar d ∧ (d ∈ s.data ∨ d = '_') ∧ d ≠ '-' := by
  rw [toUpperSnakeCase_data_eq] at h
  obtain ⟨d, hd, hdc⟩ := List.mem_map.mp h
  refine ⟨d, hdc.symm, ?_⟩
  have hd3 := mem_collapse hd
  rcases mem_dashToUnderscore hd3 with ⟨hd2, hdash⟩ | rfl
  · refine ⟨?_, hdash⟩
    rcases mem_rule2 hd2 with hd1 | hund
    · rcases mem_rule1 hd1 with hd0 | hund
      · exact Or.inl hd0
      · exact Or.inr hund
    · exact Or.inr hund
  · exact ⟨Or.inr rfl, by decide⟩

/-- The case normalizer is idempotent on digit-free input. -/
theorem toUpperSnakeCase_idem {s : String}
    (hs : ∀ c ∈ s.data, digitChar c = false) :
    toUpperSnakeCase (toUpperSnakeCase s) = toUpperSnakeCase s := by
  set t := (toUpperSnakeCase s).data with ht
  have hlow : ∀ c ∈ t, lowerChar c = false := by
    intro c hc
    obtain ⟨d, rfl, -, -⟩ := mem_toUpperSnakeCase_data hc
    exact lowerChar_upChar d
  have hdig : ∀ c ∈ t, digitChar c = false := by
    intro c hc
    obtain ⟨d, rfl, hd, -⟩ := mem_toUpperSnakeCase_data hc
    rw [digitChar_upChar]
    rcases hd with hd | rfl
    · exact hs d hd
    · decide
  have hdash : ∀ c ∈ t, c ≠ '-' := by
    intro c hc
    obtain ⟨d, rfl, -, hd⟩ := mem_toUpperSnakeCase_data hc
    exact upChar_ne_dash hd
  have hund : noDoubleUnd t = true := by
    rw [ht, toUpperSnakeCase_data_eq]
    exact noDoubleUnd_map_upChar (noDoubleUnd_collapse _)
  have e1 : rule1 t = t := rule1_id (fun c hc => ⟨hlow c hc, hdig c hc⟩)
  have e2 : rule2 t = t := rule2_id hlow
  have e3 : dashToUnderscore t = t := dashToUnderscore_id hdash
  have e4 : collapse t = t := collapse_id hund
  have e5 : t.map upChar = t := map_upChar_id hlow
  calc toUpperSnakeCase (toUpperSnakeCase s)
      = String.mk ((collapse (dashToUnderscore (rule2 (rule1 t)))).map upChar) := rfl
    _ = String.mk t := by rw [e1, e2, e3, e4, e5]
    _ = toUpperSnakeCase s := rfl

theorem outChar_upChar {d : Char} (hd : idChar d = true) (hnd : d ≠ '-') :
    outChar (upChar d) = true := by
  simp only [idChar, Bool.or_eq_true, decide_eq_true_eq] at hd
  rcases hd with (((hl | hu) | hg) | hdash) | hund
  · simp only [outChar, Bool.or_eq_true]
    exact Or.inl (Or.inl (upperChar_upChar_of_lower hl))
  · rw [upChar_eq_self (not_lower_of_upper hu)]
    simp [outChar, hu]
  · rw [upChar_eq_self (not_lower_of_digit hg)]
    simp [outChar, hg]
  · exact absurd hdash hnd
  · subst hund; decide

/-- Every character of the normalizer output is uppercase, a digit or an
underscore, provided the input ranges over the identifier alphabet. -/
theorem toUpperSnakeCase_charset {s : String} (hs : ∀ c ∈ s.data, idChar c = true) :
    ∀ c ∈ (toUpperSnakeCase s).data, outChar c = true := by
  intro c hc
  obtain ⟨d, rfl, hd, hnd⟩ := mem_toUpperSnakeCase_data hc
  rcases hd with hd | rfl
  · exact outChar_upChar (hs d hd) hnd
  · decide

/-! ### Separator insertion at lowercase-or-digit to uppercase transitions -/

theorem ne_dash_of_upper {b : Char} (hb : upperChar b = true) : b ≠ '-' := by
  rw [upperChar_eq_true] at hb
  intro hc; rw [char_eq_iff_toNat] at hc
  have : ('-' : Char).toNat = 45 := rfl
  omega

theorem rule1_transition {a b : Char} (ha : (lowerChar a || digitChar a) = true)
    (hb : upperChar b = true) :
    ∀ xs ys : List Char, ∃ us vs,
      rule1 (xs ++ a :: b :: ys) = us ++ a :: '_' :: b :: vs := by
  intro xs
  induction xs with
  | nil =>
    intro ys
    obtain ⟨t, ht⟩ := rule1_cons b ys
    refine ⟨[], t, ?_⟩
    simp only [List.nil_append, rule1]
    rw [if_pos (by simp [ha, hb]), ht]
  | cons x xs ih =>
    intro ys
    obtain ⟨t1, rest1, hrest⟩ : ∃ t1 rest1, xs ++ a :: b :: ys = t1 :: rest1 := by
      cases xs with
      | nil => exact ⟨a, b :: ys, rfl⟩
      | cons y ys2 => exact ⟨y, ys2 ++ a :: b :: ys, rfl⟩
    obtain ⟨us, vs, huv⟩ := ih ys
    rw [List.cons_append, hrest]
    simp only [rule1]
    split
    · exact ⟨x :: '_' :: us, vs, by rw [← hrest, huv]; rfl⟩
    · exact ⟨x :: us, vs, by rw [← hrest, huv]; rfl⟩

theorem rule2_pattern (a b : Char) :
    ∀ xs ys : List Char, ∃ us vs,
      rule2 (xs ++ a :: '_' :: b :: ys) = us ++ a :: '_' :: b :: vs := by
  have h0 : upperChar '_' = false := by decide
  intro xs
  induction xs with
  | nil =>
    intro ys
    cases ys with
    | nil =>
      refine ⟨[], [], ?_⟩
      have e1 : rule2 (a :: '_' :: b :: ([] : List Char)) = a :: rule2 ['_', b] := by
        simp only [rule2]; rw [if_neg (by simp [h0])]
      rw [List.nil_append, e1]
      rfl
    | cons c ys2 =>
      obtain ⟨t, ht⟩ := rule2_cons b (c :: ys2)
      have e1 : rule2 (a :: '_' :: b :: c :: ys2) = a :: rule2 ('_' :: b :: c :: ys2) := by
        simp only [rule2]; rw [if_neg (by simp [h0])]
      have e2 : rule2 ('_' :: b :: c :: ys2) = '_' :: rule2 (b :: c :: ys2) := by
        simp only [rule2]; rw [if_neg (by simp [h0])]
      refine ⟨[], t, ?_⟩
      rw [List.nil_append, e1, e2, ht]
      rfl
  | cons x xs ih =>
    intro ys
    obtain ⟨t1, t2, rest2, hrest⟩ : ∃ t1 t2 rest2,
        xs ++ a :: '_' :: b :: ys = t1 :: t2 :: rest2 := by
      cases xs with
      | nil => exact ⟨a, '_', b :: ys, rfl⟩
      | cons y ys2 =>
        cases ys2 with
        | nil => exact ⟨y, a, '_' :: b :: ys, rfl⟩
        | cons z zs => exact ⟨y, z, zs ++ a :: '_' :: b :: ys, rfl⟩
    obtain ⟨us, vs, huv⟩ := ih ys
    rw [List.cons_append, hrest]
    simp only [rule2]
    split
    · exact ⟨x :: '_' :: us, vs, by rw [← hrest, huv]; rfl⟩
    · exact ⟨x :: us, vs, by rw [← hrest, huv]; rfl⟩

theorem dashToUnderscore_pattern {a b : Char} (ha : a ≠ '-') (hb : b ≠ '-')
    (xs ys : List Char) :
    dashToUnderscore (xs ++ a :: '_' :: b :: ys) =
      dashToUnderscore xs ++ a :: '_' :: b :: dashToUnderscore ys := by
  simp only [dashToUnderscore, List.map_append, List.map_cons]
  rw [if_neg ha, if_neg hb, if_neg (by decide)]

theorem collapse_pattern {a b : Char} (ha : a ≠ '_') (hb : b ≠ '_') :
    ∀ xs ys : List Char, ∃ us vs,
      collapse (xs ++ a :: '_' :: b :: ys) = us ++ a :: '_' :: b :: vs := by
  intro xs
  induction xs with
  | nil =>
    intro ys
    obtain ⟨t, ht⟩ := collapse_cons b ys
    refine ⟨[], t, ?_⟩
    have e1 : collapse (a :: '_' :: b :: ys) = a :: collapse ('_' :: b :: ys) := by
      simp only [collapse]; rw [if_neg (by simp [ha])]
    have e2 : collapse ('_' :: b :: ys) = '_' :: collapse (b :: ys) := by
      simp only [collapse]; rw [if_neg (by simp [hb])]
    rw [List.nil_append, e1, e2, ht]
    rfl
  | cons x xs ih =>
    intro ys
    obtain ⟨t1, rest1, hrest⟩ : ∃ t1 rest1, xs ++ a :: '_' :: b :: ys = t1 :: rest1 := by
      cases xs with
      | nil => exact ⟨a, '_' :: b :: ys, rfl⟩
      | cons y ys2 => exact ⟨y, ys2 ++ a :: '_' :: b :: ys, rfl⟩
    obtain ⟨us, vs, huv⟩ := ih ys
    rw [List.cons_append, hrest]
    simp only [collapse]
    split
    · exact ⟨us, vs, by rw [← hrest, huv]⟩
    · exact ⟨x :: us, vs, by rw [← hrest, huv]; rfl⟩

/-- C6, amended: the case normalizer inserts a separator at every transition
from a lowercase letter or digit to an uppercase letter, not at letter-to-digit
transitions: for every input in which a lowercase letter or digit is
immediately followed by an uppercase letter, the output of toUpperSnakeCase
contains an underscore between the uppercased left character and the uppercase
letter; in particular toUpperSnakeCase of value123Name is VALUE123_NAME. -/
theorem toUpperSnakeCase_transition {s : String} {xs ys : List Char} {a b : Char}
    (hsplit : s.data = xs ++ a :: b :: ys)
    (ha : (lowerChar a || digitChar a) = true) (hb : upperChar b = true) :
    ∃ us vs, (toUpperSnakeCase s).data = us ++ upChar a :: '_' :: b :: vs := by
  have hau : a ≠ '_' := ne_underscore_of_lower_or_digit ha
  have had : a ≠ '-' := ne_dash_of_lower_or_digit ha
  have hbu : b ≠ '_' := ne_underscore_of_upper hb
  have hbd : b ≠ '-' := ne_dash_of_upper hb
  obtain ⟨u1, v1, h1⟩ := rule1_transition ha hb xs ys
  obtain ⟨u2, v2, h2⟩ := rule2_pattern a b u1 v1
  have h3 := dashToUnderscore_pattern had hbd u2 v2
  obtain ⟨u4, v4, h4⟩ := collapse_pattern hau hbu (dashToUnderscore u2) (dashToUnderscore v2)
  refine ⟨u4.map upChar, v4.map upChar, ?_⟩
  rw [toUpperSnakeCase_data_eq, hsplit, h1, h2, h3, h4]
  simp only [List.map_append, List.map_cons]
  rw [show upChar '_' = '_' from by decide, upChar_eq_self (not_lower_of_upper hb)]

/-! ### Claim theorems -/

/-- C6, counterexample: the normalizer does not insert a separator at a
letter-to-digit transition; on value123Name it returns VALUE123_NAME, exactly
as the repository unit test expects, and not VALUE_123_NAME. -/
theorem toUpperSnakeCase_letter_digit_counterexample :
    toUpperSnakeCase "value123Name" = "VALUE123_NAME" ∧
    toUpperSnakeCase "value123Name" ≠ "VALUE_123_NAME" :=
  ⟨by decide, by decide⟩

/-- C6, witness: the amended transition theorem applied at the concrete input
value123Name, at the digit-to-uppercase seam between 3 and N. -/
theorem toUpperSnakeCase_transition_witness :
    ∃ us vs, (toUpperSnakeCase "value123Name").data =
      us ++ upChar '3' :: '_' :: 'N' :: vs :=
  @toUpperSnakeCase_transition "value123Name" ['v', 'a', 'l', 'u', 'e', '1', '2']
    ['a', 'm', 'e'] '3' 'N' (by decide) (by decide) (by decide)

/-- C7, counterexample: the normalizer is not idempotent; on value123name one
application yields VALUE123NAME and the second application inserts a further
separator at the now digit-to-uppercase seam. -/
theorem toUpperSnakeCase_not_idempotent :
    toUpperSnakeCase (toUpperSnakeCase "value123name") ≠
      toUpperSnakeCase "value123name" := by
  decide

/-- C7, amended: over the identifier alphabet the output of toUpperSnakeCase
matches the regex class of uppercase letters, digits and underscores; the
normalizer is idempotent on every digit-free input (a digit immediately
followed by a letter can gain a separator only on the second application, so
unrestricted idempotence fails); the empty string maps to the empty string. -/
theorem toUpperSnakeCase_charset_and_idem (s : String) :
    ((∀ c ∈ s.data, idChar c = true) →
      ∀ c ∈ (toUpperSnakeCase s).data, outChar c = true) ∧
    ((∀ c ∈ s.data, digitChar c = false) →
      toUpperSnakeCase (toUpperSnakeCase s) = toUpperSnakeCase s) ∧
    toUpperSnakeCase "" = "" :=
  ⟨fun hs => toUpperSnakeCase_charset hs, fun hs => toUpperSnakeCase_idem hs, rfl⟩

/-- C7, witness: charset and idempotence at the concrete identifier
aws-account_id, which is digit-free. -/
theorem toUpperSnakeCase_charset_and_idem_witness :
    (∀ c ∈ (toUpperSnakeCase "aws-account_id").data, outChar c = true) ∧
    toUpperSnakeCase (toUpperSnakeCase "aws-account_id") =
      toUpperSnakeCase "aws-account_id" :=
  ⟨(toUpperSnakeCase_charset_and_idem "aws-account_id").1 (by decide),
   (toUpperSnakeCase_charset_and_idem "aws-account_id").2.1 (by decide)⟩

/-- C4: the claimed deep copy does not happen. The getter copies the template
with a shallow spread, so the first call already mutates the module-level
catalog state, and a second call with a different target branch changes the
include list observed through the ruleset returned by the first call; the
third conjunct records that the first returned ruleset and the catalog view
are the same shared object. -/
theorem getBranchProtectionPreset_shallow_copy_bug :
    ((getBranchProtectionPreset .strict "main" initialCatalogState).2 ≠
      initialCatalogState) ∧
    (viewRuleset .strict
        (getBranchProtectionPreset .strict "dev"
          (getBranchProtectionPreset .strict "main" initialCatalogState).2).2 ≠
      viewRuleset .strict
        (getBranchProtectionPreset .strict "main" initialCatalogState).2) ∧
    (viewRuleset .strict
        (getBranchProtectionPreset .strict "main" initialCatalogState).2 =
      (getBranchProtectionPreset .strict "main" initialCatalogState).1) :=
  ⟨by decide, by decide, by decide⟩

/-- C5: for every preset and target branch, the returned ruleset includes
exactly the fully qualified ref of the target branch; the pull_request rule
requires 2 approving reviews for strict and 1 for moderate and minimal, with
stale-review dismissal, last-push approval and thread resolution on for strict
and moderate and off for minimal; and every preset carries a non_fast_forward
rule. -/
theorem getBranchProtectionPreset_fields (p : BranchProtectionPreset) (b : String)
    (s : CatalogState) :
    ((getBranchProtectionPreset p b s).1.conditions.ref_include =
      ["refs/heads/" ++ b]) ∧
    (getBranchProtectionPreset p b s).1.rules = [
      { type := "pull_request"
        parameters := some
          { dismiss_stale_reviews_on_push :=
              (match p with | .minimal => false | _ => true)
            require_code_owner_review := false
            require_last_push_approval :=
              (match p with | .minimal => false | _ => true)
            required_approving_review_count :=
              (match p with | .strict => 2 | _ => 1)
            required_review_thread_resolution :=
              (match p with | .minimal => false | _ => true) } },
      { type := "non_fast_forward", parameters := none } ] := by
  cases p <;> exact ⟨rfl, rfl⟩

/-- C9: with the default-branch input absent the runner resolves the default
branch to main, while with the branch-protection target input absent the
ruleset targets refs/heads/master; hence the single include ref of the created
ruleset does not name the default branch. -/
theorem default_branch_mismatch (p : BranchProtectionPreset) (s : CatalogState) :
    resolveDefaultBranch "" = "main" ∧
    resolveTargetBranch "" = "master" ∧
    (getBranchProtectionPreset p (resolveTargetBranch "") s).1.conditions.ref_include =
      ["refs/heads/master"] ∧
    (getBranchProtectionPreset p (resolveTargetBranch "") s).1.conditions.ref_include ≠
      ["refs/heads/" ++ resolveDefaultBranch ""] := by
  have h3 : (getBranchProtectionPreset p (resolveTargetBranch "") s).1.conditions.ref_include =
      ["refs/heads/master"] := rfl
  refine ⟨rfl, rfl, h3, ?_⟩
  rw [h3]
  decide

/-- C10: the productionalization pass runs exactly when the productionalize
input is the string true; for every other raw input, among them True, 1, yes
and the empty string, the gate stays closed, no configuration is attached, and
no productionalization-status output is produced. -/
theorem productionalize_gate (raw : String) (parsedConfig : ProductionalizationConfig) :
    ((productionalizeEnabled raw = true) ↔ raw = "true") ∧
    ((producesProdStatusOutput (getInitializerProd raw parsedConfig) = true) ↔
      raw = "true") ∧
    productionalizeEnabled "True" = false ∧
    productionalizeEnabled "1" = false ∧
    productionalizeEnabled "yes" = false ∧
    productionalizeEnabled "" = false := by
  have h1 : (productionalizeEnabled raw = true) ↔ raw = "true" := by
    simp [productionalizeEnabled, DEFAULT_PRODUCTIONALIZE]
  refine ⟨h1, ?_, by decide, by decide, by decide, by decide⟩
  unfold getInitializerProd
  by_cases h : productionalizeEnabled raw = true
  · rw [if_pos h]
    simp [producesProdStatusOutput, h1.mp h]
  · rw [if_neg h]
    simp only [producesProdStatusOutput, Option.isSome_none, Bool.and_false]
    constructor
    · intro hfalse; exact absurd hfalse (by decide)
    · intro hr; exact absurd (h1.mpr hr) h

/-- C1: for the empty configuration, productionalizeRepository resolves (it is
a total function) and returns the fully populated empty result: empty team,
environment, variable and secret sequences, zero counts, false booleans, and
no error fields set. -/
theorem productionalize_empty_config (api : RemoteApi) (owner repo : String) :
    productionalizeRepository api owner repo {} =
      { teamPermissions := [], topicsAdded := false, topicsError := none,
        environmentsCreated := [], environmentErrors := [],
        variablesCreated := 0, variableErrors := [],
        branchProtectionCreated := false, branchProtectionError := none,
        secretsCreated := 0, secretErrors := [] } := rfl

/-- C2: with a configured team list, the result records one entry per team in
input order: the entry at each index carries that team slug with success true
when the remote call returns ok, and success false with the remote error
message when it fails; and the outcome of every other sub-operation is
unchanged by the team list, so one team failure never blocks the rest. -/
theorem productionalize_team_permissions (api : RemoteApi) (owner repo : String)
    (config : ProductionalizationConfig) (teams : List TeamPermissionConfig)
    (h : config.teamPermissions = some teams) :
    ((productionalizeRepository api owner repo config).teamPermissions.length =
      teams.length) ∧
    (∀ (i : Nat) (t : TeamPermissionConfig), teams[i]? = some t →
      (∀ u, api.addOrUpdateRepoPermissionsInOrg owner t.teamSlug owner repo
          (permissionString t.permission) = .ok u →
        (productionalizeRepository api owner repo config).teamPermissions[i]? =
          some { teamSlug := t.teamSlug, success := true, error := none }) ∧
      (∀ e, api.addOrUpdateRepoPermissionsInOrg owner t.teamSlug owner repo
          (permissionString t.permission) = .error e →
        (productionalizeRepository api owner repo config).teamPermissions[i]? =
          some { teamSlug := t.teamSlug, success := false, error := some e })) ∧
    (∀ other : Option (List TeamPermissionConfig),
      ((productionalizeRepository api owner repo config).topicsAdded =
        (productionalizeRepository api owner repo
          { config with teamPermissions := other }).topicsAdded) ∧
      ((productionalizeRepository api owner repo config).environmentsCreated =
        (productionalizeRepository api owner repo
          { config with teamPermissions := other }).environmentsCreated) ∧
      ((productionalizeRepository api owner repo config).variablesCreated =
        (productionalizeRepository api owner repo
          { config with teamPermissions := other }).variablesCreated) ∧
      ((productionalizeRepository api owner repo config).branchProtectionCreated =
        (productionalizeRepository api owner repo
          { config with teamPermissions := other }).branchProtectionCreated) ∧
      ((productionalizeRepository api owner repo config).secretsCreated =
        (productionalizeRepository api owner repo
          { config with teamPermissions := other }).secretsCreated) ∧
      ((productionalizeRepository api owner repo config).secretErrors =
        (productionalizeRepository api owner repo
          { config with teamPermissions := other }).secretErrors)) := by
  have hmap : (productionalizeRepository api owner repo config).teamPermissions =
      teams.map (fun t =>
        match api.addOrUpdateRepoPermissionsInOrg owner t.teamSlug owner repo
            (permissionString t.permission) with
        | .ok _ => { teamSlug := t.teamSlug, success := true, error := none }
        | .error e => { teamSlug := t.teamSlug, success := false, error := some e }) := by
    show runTeamPermissions api owner repo config.teamPermissions = _
    rw [h]
    rfl
  refine ⟨by rw [hmap, List.length_map], ?_, ?_⟩
  · intro i t hit
    constructor
    · intro u hu
      rw [hmap, List.getElem?_map, hit, Option.map_some']
      rw [hu]
    · intro e he
      rw [hmap, List.getElem?_map, hit, Option.map_some']
      rw [he]
  · intro other
    exact ⟨rfl, rfl, rfl, rfl, rfl, rfl⟩

/-- C2, witness: the two-team scenario of the unit test. The first call
succeeds, the second fails with Team not found; the result has length 2 with
index 0 successful and index 1 failed carrying the error text. -/
theorem productionalize_team_permissions_witness :
    ((productionalizeRepository twoTeamApi "test-org" "test-repo"
        twoTeamConfig).teamPermissions.length = 2) ∧
    ((productionalizeRepository twoTeamApi "test-org" "test-repo"
        twoTeamConfig).teamPermissions[0]? =
      some { teamSlug := "valid-team", success := true, error := none }) ∧
    ((productionalizeRepository twoTeamApi "test-org" "test-repo"
        twoTeamConfig).teamPermissions[1]? =
      some { teamSlug := "invalid-team", success := false,
             error := some "Team not found" }) := by
  obtain ⟨hlen, hidx, -⟩ := productionalize_team_permissions twoTeamApi "test-org"
    "test-repo" twoTeamConfig _ rfl
  refine ⟨hlen, ?_, ?_⟩
  · exact (hidx 0 _ rfl).1 () rfl
  · exact (hidx 1 _ rfl).2 "Team not found" rfl

/-- C3: with a non-empty secrets list, if the single public key fetch fails
the orchestrator still resolves, with zero secrets created, an empty secret
error list, and no create or update secret call issued. -/
theorem productionalize_secrets_key_failure (api : RemoteApi) (owner repo : String)
    (config : ProductionalizationConfig) (secs : List RepositorySecret) (e : String)
    (hsec : config.secrets = some secs) (_hne : secs ≠ [])
    (hkey : api.getRepoPublicKey owner repo = .error e) :
    ((productionalizeRepository api owner repo config).secretsCreated = 0) ∧
    ((productionalizeRepository api owner repo config).secretErrors = []) ∧
    ((runSecrets api owner repo config.secrets).calls = []) := by
  have hstage : runSecrets api owner repo config.secrets =
      { created := 0, errors := [], calls := [] } := by
    rw [hsec]
    simp only [runSecrets]
    rw [hkey]
  have h1 : (productionalizeRepository api owner repo config).secretsCreated =
      (runSecrets api owner repo config.secrets).created := rfl
  have h2 : (productionalizeRepository api owner repo config).secretErrors =
      (runSecrets api owner repo config.secrets).errors := rfl
  rw [h1, h2, hstage]
  exact ⟨rfl, rfl, rfl⟩

/-- C3, witness: the one-secret scenario of the unit test, with a capability
whose public key fetch fails with Access denied. -/
theorem productionalize_secrets_key_failure_witness :
    ((productionalizeRepository twoTeamApi "test-org" "test-repo"
        oneSecretConfig).secretsCreated = 0) ∧
    ((productionalizeRepository twoTeamApi "test-org" "test-repo"
        oneSecretConfig).secretErrors = []) ∧
    ((runSecrets twoTeamApi "test-org" "test-repo" oneSecretConfig.secrets).calls = []) :=
  productionalize_secrets_key_failure twoTeamApi "test-org" "test-repo"
    oneSecretConfig _ "Access denied" rfl (by decide) rfl

end Foundry
